import Mathlib

/-! Verification of the DeepSORT multi-target Track Manager
(`deep_sort/sort/tracker.py`).  The `Tracker` class orchestrates, per frame:
motion prediction, a two-stage association (`_match`: appearance cascade over
confirmed tracks, then IOU matching over tentative plus freshly-missed
confirmed tracks), application of the match/miss/new-track outcomes,
pruning of deleted tracks, and the appearance-gallery refresh
(`metric.partial_fit`).

The collaborators (`track.py`, `linear_assignment.py`, `iou_matching.py`,
`nn_matching.py`, `kalman_filter.py`) are external to the verified source;
they are embedded as opaque functions bundled in an `Env`, constrained only
where the specification states a contract (see `SolverOk` and the doc
comments marked "Modelled from the spec").  Numeric payloads (boxes, filter
states, costs) are rationals; appearance features are opaque integer lists.
-/

namespace DeepSort

/-- An appearance feature vector (opaque payload produced by the external
feature extractor). -/
abbrev Feat := List Int

/-- A numeric vector: a bounding box, a filter mean, or a covariance payload. -/
abbrev Vec := List Rat

/-- One detection of the current frame: bounding box (top-left/width/height
form, convertible to center/aspect/height) plus one appearance feature. -/
structure Detection where
  tlwh : Vec
  feature : Feat
deriving DecidableEq

instance : Inhabited Detection := ⟨⟨[], []⟩⟩

/-- Lifecycle state of a track (the `TrackState` constants of `track.py`). -/
inductive TrackState where
  | Tentative
  | Confirmed
  | Deleted
deriving DecidableEq

/-- Modelled from the spec: the observable fields of a Tracked Object
(`track.py` is not part of the verified source).  A track carries a unique
identity, the motion-filter state, the confirmation/deletion thresholds it
was constructed with, the miss counter `time_since_update`, a lifecycle
state, and the accumulated appearance-feature list. -/
structure Track where
  mean : Vec
  covariance : Vec
  track_id : Nat
  n_init : Nat
  max_age : Nat
  time_since_update : Nat
  state : TrackState
  features : List Feat
deriving DecidableEq

instance : Inhabited Track :=
  ⟨{ mean := [], covariance := [], track_id := 0, n_init := 0, max_age := 0,
     time_since_update := 0, state := TrackState.Tentative, features := [] }⟩

/-- `Track.is_confirmed`: the track is in the Confirmed lifecycle state. -/
def Track.is_confirmed (t : Track) : Bool := t.state == TrackState.Confirmed

/-- `Track.is_deleted`: the track is in the Deleted lifecycle state. -/
def Track.is_deleted (t : Track) : Bool := t.state == TrackState.Deleted

/-- Result triple of an assignment stage: matched (track index, detection
index) pairs, unmatched track indices, unmatched detection indices. -/
structure MatchResult where
  matched : List (Nat × Nat)
  unmatched_tracks : List Nat
  unmatched_detections : List Nat
deriving DecidableEq

/-- A pairwise cost matrix, rows indexed by detections or tracks. -/
abbrev CostMatrix := List (List Rat)

/-- The shape of a cost function handed to an assignment solver:
`cost_fn tracks detections track_indices detection_indices`. -/
abbrev CostFn := List Track → List Detection → List Nat → List Nat → CostMatrix

/-- The external collaborators of the Track Manager, embedded as opaque
functions.  `matching_cascade` and `min_cost_matching` are the two assignment
solvers of `linear_assignment.py`; `metricDistance` is
`metric.distance`; `gateCost` is `linear_assignment.gate_cost_matrix`
(with the Kalman filter absorbed, since `self.kf` is fixed);
`iou_cost` is `iou_matching.iou_cost`; `kf_initiate` is
`KalmanFilter.initiate`; `to_xyah` is `Detection.to_xyah`; `track_update`
and `track_predict` are the state transitions of `Track.update` and
`Track.predict`.  The cascade solver is called without an explicit
detection-index list, i.e. over all detections. -/
structure Env where
  matching_threshold : Rat
  metricDistance : List Feat → List Nat → CostMatrix
  gateCost : CostMatrix → List Track → List Detection → List Nat → List Nat → CostMatrix
  iou_cost : CostFn
  matching_cascade : CostFn → Rat → Nat → List Track → List Detection → List Nat → MatchResult
  min_cost_matching : CostFn → Rat → List Track → List Detection → List Nat → List Nat → MatchResult
  kf_initiate : Vec → Vec × Vec
  to_xyah : Vec → Vec
  track_update : Track → Detection → Track
  track_predict : Track → Track

/-- Modelled from the spec: the solver contract of `linear_assignment.py`
(not part of the verified source).  Both solvers return leftover indices:
the matched track indices together with the unmatched track indices are
exactly the candidate track indices, and likewise for detection indices
("Output: matches (track-index, detection-index) pairs; unmatched
confirmed-track indices; unmatched-detection indices"). -/
def SolverOk (track_indices detection_indices : List Nat) (r : MatchResult) : Prop :=
  (r.matched.map Prod.fst ++ r.unmatched_tracks).Perm track_indices ∧
  (r.matched.map Prod.snd ++ r.unmatched_detections).Perm detection_indices

/-- The environment's two solvers satisfy `SolverOk` on every call; the
cascade solver's detection universe is all detections. -/
def EnvSolversOk (env : Env) : Prop :=
  (∀ cf th ma ts ds ti,
      SolverOk ti (List.range ds.length) (env.matching_cascade cf th ma ts ds ti)) ∧
  (∀ cf md ts ds ti di, SolverOk ti di (env.min_cost_matching cf md ts ds ti di))

/-- The record of one `metric.partial_fit(features, targets, active_targets)`
invocation performed by `Tracker.update`. -/
@[ext]
structure FitCall where
  features : List Feat
  targets : List Nat
  active_targets : List Nat
deriving DecidableEq

/-- The multi-target tracker: matching/deletion parameters, the active track
list, and the next identity to assign (`_next_id`). -/
structure Tracker where
  max_iou_distance : Rat
  max_age : Nat
  n_init : Nat
  tracks : List Track
  next_id : Nat
deriving DecidableEq

/-- The `gated_metric` closure of `Tracker._match`: gather the candidate
detections' features and candidate tracks' identities, compute the
appearance cost matrix with `metric.distance`, then gate it with
`gate_cost_matrix`. -/
def gated_metric (env : Env) (tracks : List Track) (dets : List Detection)
    (track_indices detection_indices : List Nat) : CostMatrix :=
  let features := detection_indices.map (fun i => (dets.getD i default).feature)
  let targets := track_indices.map (fun i => (tracks.getD i default).track_id)
  let cost_matrix := env.metricDistance features targets
  env.gateCost cost_matrix tracks dets track_indices detection_indices

/-- `confirmed_tracks` of `_match`: indices of confirmed tracks. -/
def confirmedIndices (tracks : List Track) : List Nat :=
  (List.range tracks.length).filter (fun i => (tracks.getD i default).is_confirmed)

/-- `unconfirmed_tracks` of `_match`: indices of not-confirmed tracks. -/
def unconfirmedIndices (tracks : List Track) : List Nat :=
  (List.range tracks.length).filter (fun i => !(tracks.getD i default).is_confirmed)

/-- Stage A of `_match`: the matching cascade over the confirmed track
indices with the gated appearance metric. -/
def stageA (env : Env) (tr : Tracker) (dets : List Detection) : MatchResult :=
  env.matching_cascade (gated_metric env) env.matching_threshold tr.max_age
    tr.tracks dets (confirmedIndices tr.tracks)

/-- `iou_track_candidates`: the not-confirmed tracks together with those
Stage-A-unmatched tracks that were updated exactly one frame ago. -/
def iou_track_candidates (env : Env) (tr : Tracker) (dets : List Detection) : List Nat :=
  unconfirmedIndices tr.tracks ++
    (stageA env tr dets).unmatched_tracks.filter
      (fun k => (tr.tracks.getD k default).time_since_update == 1)

/-- The reassignment of `unmatched_tracks_a` in `_match`: Stage-A leftovers
whose `time_since_update` is not 1, which skip Stage B. -/
def unmatchedTracksA (env : Env) (tr : Tracker) (dets : List Detection) : List Nat :=
  (stageA env tr dets).unmatched_tracks.filter
    (fun k => (tr.tracks.getD k default).time_since_update != 1)

/-- Stage B of `_match`: plain min-cost matching with the IOU cost over the
IOU candidate tracks and the detections left unmatched by Stage A. -/
def stageB (env : Env) (tr : Tracker) (dets : List Detection) : MatchResult :=
  env.min_cost_matching env.iou_cost tr.max_iou_distance tr.tracks dets
    (iou_track_candidates env tr dets) (stageA env tr dets).unmatched_detections

/-- `Tracker._match`: merge the two stages.  Python's
`list(set(unmatched_tracks_a + unmatched_tracks_b))` (content-preserving
deduplication, order unspecified) is embedded as `List.dedup` of the
concatenation. -/
def matchDets (env : Env) (tr : Tracker) (dets : List Detection) : MatchResult :=
  { matched := (stageA env tr dets).matched ++ (stageB env tr dets).matched,
    unmatched_tracks :=
      (unmatchedTracksA env tr dets ++ (stageB env tr dets).unmatched_tracks).dedup,
    unmatched_detections := (stageB env tr dets).unmatched_detections }

/-- In-place update of list position `i` (Python `self.tracks[i] = ...`
effect of calling a mutating method on `self.tracks[i]`); out-of-range
indices never occur under the solver contract. -/
def setWith (l : List Track) (i : Nat) (f : Track → Track) : List Track :=
  match l[i]? with
  | some t => l.set i (f t)
  | none => l

/-- Modelled from the spec: `Track.update` (external) mutates the motion
state, counters, features and lifecycle in place and never reassigns the
track's identity. -/
def appTrackUpdate (env : Env) (t : Track) (d : Detection) : Track :=
  { env.track_update t d with track_id := t.track_id }

/-- Modelled from the spec: `Track.predict` (external) advances the motion
estimate and counters and never reassigns the track's identity. -/
def appTrackPredict (env : Env) (t : Track) : Track :=
  { env.track_predict t with track_id := t.track_id }

/-- Modelled from the spec: `Track.mark_missed` (external) deletes a
Tentative track on its first miss, deletes a track whose
`time_since_update` exceeds `max_age`, and changes nothing else. -/
def mark_missed (t : Track) : Track :=
  if t.state == TrackState.Tentative then { t with state := TrackState.Deleted }
  else if t.max_age < t.time_since_update then { t with state := TrackState.Deleted }
  else t

/-- The loop `for track_idx, detection_idx in matches:
self.tracks[track_idx].update(self.kf, detections[detection_idx])`. -/
def applyMatches (env : Env) (dets : List Detection) (tracks : List Track)
    (ms : List (Nat × Nat)) : List Track :=
  ms.foldl
    (fun ts p => setWith ts p.1 (fun t => appTrackUpdate env t (dets.getD p.2 default)))
    tracks

/-- The loop `for track_idx in unmatched_tracks:
self.tracks[track_idx].mark_missed()`. -/
def applyMisses (tracks : List Track) (uts : List Nat) : List Track :=
  uts.foldl (fun ts k => setWith ts k mark_missed) tracks

/-- Modelled from the spec: the Tracked Object constructor used by
`_initiate_track` — `Track(mean, covariance, self._next_id, self.n_init,
self.max_age, detection.feature)` creates a Tentative track seeded from the
detection's box (via `kf.initiate(detection.to_xyah())`) and feature. -/
def newTrack (env : Env) (ni ma : Nat) (det : Detection) (nid : Nat) : Track :=
  { mean := (env.kf_initiate (env.to_xyah det.tlwh)).1,
    covariance := (env.kf_initiate (env.to_xyah det.tlwh)).2,
    track_id := nid, n_init := ni, max_age := ma,
    time_since_update := 0, state := TrackState.Tentative,
    features := [det.feature] }

/-- The loop `for detection_idx in unmatched_detections:
self._initiate_track(detections[detection_idx])`: each iteration appends a
new track and increments `_next_id`. -/
def initTracks (env : Env) (ni ma : Nat) (dets : List Detection) :
    List Nat → List Track → Nat → List Track × Nat
  | [], ts, nid => (ts, nid)
  | d :: rest, ts, nid =>
      initTracks env ni ma dets rest (ts ++ [newTrack env ni ma (dets.getD d default) nid]) (nid + 1)

/-- Closed form of the tracks appended by `initTracks`. -/
def newTracksFor (env : Env) (ni ma : Nat) (dets : List Detection) :
    List Nat → Nat → List Track
  | [], _ => []
  | d :: rest, nid =>
      newTrack env ni ma (dets.getD d default) nid :: newTracksFor env ni ma dets rest (nid + 1)

/-- The track list after the three outcome loops of `Tracker.update`
(matches applied, misses marked), before new-track initiation. -/
def tracksAfterApply (env : Env) (tr : Tracker) (dets : List Detection) : List Track :=
  applyMisses (applyMatches env dets tr.tracks (matchDets env tr dets).matched)
    (matchDets env tr dets).unmatched_tracks

/-- The track list and next identity after new-track initiation. -/
def afterInit (env : Env) (tr : Tracker) (dets : List Detection) : List Track × Nat :=
  initTracks env tr.n_init tr.max_age dets (matchDets env tr dets).unmatched_detections
    (tracksAfterApply env tr dets) tr.next_id

/-- The pruning step `self.tracks = [t for t in self.tracks if not
t.is_deleted()]`. -/
def tracksPruned (env : Env) (tr : Tracker) (dets : List Detection) : List Track :=
  (afterInit env tr dets).1.filter (fun t => !t.is_deleted)

/-- The gallery-refresh loop of `Tracker.update`: walk the pruned track
list, skip not-confirmed tracks, concatenate each confirmed track's
features, tag each feature with the track's identity, and clear the
track's feature list.  Returns the mutated track list and the accumulated
`features`/`targets` arguments. -/
def refreshLoop : List Track → List Track × List Feat × List Nat
  | [] => ([], [], [])
  | t :: ts =>
      let r := refreshLoop ts
      if t.is_confirmed then
        (({ t with features := [] }) :: r.1,
         t.features ++ r.2.1,
         t.features.map (fun _ => t.track_id) ++ r.2.2)
      else (t :: r.1, r.2.1, r.2.2)

/-- The single `metric.partial_fit` invocation at the end of
`Tracker.update`: the concatenated features of the pruned confirmed tracks,
their identity tags, and `active_targets` (all currently confirmed
identities). -/
def fitCall (env : Env) (tr : Tracker) (dets : List Detection) : FitCall :=
  { features := (refreshLoop (tracksPruned env tr dets)).2.1,
    targets := (refreshLoop (tracksPruned env tr dets)).2.2,
    active_targets :=
      ((tracksPruned env tr dets).filter (fun t => t.is_confirmed)).map Track.track_id }

/-- `Tracker.update(detections)`: run `_match`, apply the outcomes, prune
deleted tracks, and refresh the appearance gallery.  The second component
records the `metric.partial_fit` invocations made during the call (the
source makes exactly one, unconditionally, at its end). -/
def Tracker.update (env : Env) (tr : Tracker) (dets : List Detection) :
    Tracker × List FitCall :=
  ({ tr with
       tracks := (refreshLoop (tracksPruned env tr dets)).1,
       next_id := (afterInit env tr dets).2 },
   [fitCall env tr dets])

/-- `Tracker.predict()`: every track runs its own motion-propagation step. -/
def Tracker.predict (env : Env) (tr : Tracker) : Tracker :=
  { tr with tracks := tr.tracks.map (appTrackPredict env) }

/-- One externally invokable operation on a tracker. -/
inductive Op where
  | predictOp : Op
  | updateOp : List Detection → Op

/-- Run one operation, discarding the metric-call record. -/
def stepOp (env : Env) (tr : Tracker) : Op → Tracker
  | Op.predictOp => Tracker.predict env tr
  | Op.updateOp dets => (Tracker.update env tr dets).1

/-- Run a sequence of predict/update operations. -/
def runOps (env : Env) (tr : Tracker) : List Op → Tracker
  | [] => tr
  | op :: ops => runOps env (stepOp env tr op) ops

/-- A trivial but contract-satisfying environment, used to exhibit concrete
runs: both solvers match nothing and return all candidates unmatched. -/
def envTriv : Env :=
  { matching_threshold := 0,
    metricDistance := fun _ _ => [],
    gateCost := fun cm _ _ _ _ => cm,
    iou_cost := fun _ _ _ _ => [],
    matching_cascade := fun _ _ _ _ ds ti =>
      { matched := [], unmatched_tracks := ti,
        unmatched_detections := List.range ds.length },
    min_cost_matching := fun _ _ _ _ ti di =>
      { matched := [], unmatched_tracks := ti, unmatched_detections := di },
    kf_initiate := fun v => (v, v),
    to_xyah := fun v => v,
    track_update := fun t _ => t,
    track_predict := fun t => t }

/-- A concrete confirmed track with a stale miss counter. -/
def tConfStale : Track :=
  { mean := [1], covariance := [1], track_id := 1, n_init := 3, max_age := 70,
    time_since_update := 2, state := TrackState.Confirmed, features := [[5]] }

/-- A concrete tentative track. -/
def tTent : Track :=
  { mean := [2], covariance := [2], track_id := 2, n_init := 3, max_age := 70,
    time_since_update := 0, state := TrackState.Tentative, features := [[6]] }

/-- A concrete tracker holding one stale confirmed and one tentative track. -/
def trX : Tracker :=
  { max_iou_distance := 7/10, max_age := 70, n_init := 3,
    tracks := [tConfStale, tTent], next_id := 3 }

/-- A concrete one-detection frame. -/
def detsX : List Detection := [⟨[3], [7]⟩]

/-- A concrete tracker with an empty active set. -/
def trEmpty : Tracker :=
  { max_iou_distance := 7/10, max_age := 70, n_init := 3, tracks := [], next_id := 1 }

/-- The property asserted by claim C1: the Stage B candidate set is exactly
the not-confirmed indices together with the Stage-A-unmatched indices whose
`time_since_update` equals 1, and every Stage-A-unmatched confirmed index
with `time_since_update ≠ 1` is excluded from Stage B (never matched there)
and lands in the final unmatched-tracks output. -/
def C1Shape (env : Env) (tr : Tracker) (dets : List Detection) : Prop :=
  (∀ k, k ∈ iou_track_candidates env tr dets ↔
     (k ∈ unconfirmedIndices tr.tracks ∨
      (k ∈ (stageA env tr dets).unmatched_tracks ∧
        (tr.tracks.getD k default).time_since_update = 1))) ∧
  (∀ k ∈ (stageA env tr dets).unmatched_tracks,
     (tr.tracks.getD k default).is_confirmed = true →
     (tr.tracks.getD k default).time_since_update ≠ 1 →
       k ∉ iou_track_candidates env tr dets ∧
       k ∉ (stageB env tr dets).matched.map Prod.fst ∧
       k ∈ (matchDets env tr dets).unmatched_tracks)

/-- The property asserted by claim C3: the outcome-application phase of
`update` updates exactly the matched positions with their assigned
detections, miss-marks exactly the unmatched positions, and appends one
fresh Tentative track per unmatched detection carrying consecutive
identities starting at `next_id`, which advances by their count. -/
def C3Shape (env : Env) (tr : Tracker) (dets : List Detection) : Prop :=
  (∀ p ∈ (matchDets env tr dets).matched,
     ((afterInit env tr dets).1)[p.1]? =
       some (appTrackUpdate env (tr.tracks.getD p.1 default) (dets.getD p.2 default))) ∧
  (∀ k ∈ (matchDets env tr dets).unmatched_tracks,
     ((afterInit env tr dets).1)[k]? =
       some (mark_missed (tr.tracks.getD k default))) ∧
  (afterInit env tr dets).1 =
    tracksAfterApply env tr dets ++
      newTracksFor env tr.n_init tr.max_age dets
        (matchDets env tr dets).unmatched_detections tr.next_id ∧
  (afterInit env tr dets).2 =
    tr.next_id + (matchDets env tr dets).unmatched_detections.length ∧
  (∀ ni ma d i, (newTrack env ni ma d i).state = TrackState.Tentative ∧
     (newTrack env ni ma d i).features = [d.feature] ∧
     (newTrack env ni ma d i).track_id = i ∧
     (newTrack env ni ma d i).mean = (env.kf_initiate (env.to_xyah d.tlwh)).1) ∧
  (newTracksFor env tr.n_init tr.max_age dets
      (matchDets env tr dets).unmatched_detections tr.next_id).map Track.track_id =
    List.range' tr.next_id (matchDets env tr dets).unmatched_detections.length

/-- The property asserted by claim C6: across any operation sequence the
next-identity counter dominates all live identities and is monotone, every
surviving identity is either inherited or fresh, a single `update` hands out
exactly the consecutive block of new identities, and `predict` changes no
identity. -/
def C6Shape (env : Env) (ops : List Op) (tr : Tracker) : Prop :=
  (∀ t ∈ (runOps env tr ops).tracks, t.track_id < (runOps env tr ops).next_id) ∧
  tr.next_id ≤ (runOps env tr ops).next_id ∧
  (∀ t ∈ (runOps env tr ops).tracks,
     t.track_id ∈ tr.tracks.map Track.track_id ∨ tr.next_id ≤ t.track_id) ∧
  (∀ dets, (Tracker.update env tr dets).1.next_id =
       tr.next_id + (matchDets env tr dets).unmatched_detections.length ∧
     ((Tracker.update env tr dets).1.tracks.map Track.track_id).Sublist
       (tr.tracks.map Track.track_id ++
         List.range' tr.next_id (matchDets env tr dets).unmatched_detections.length)) ∧
  (Tracker.predict env tr).tracks.map Track.track_id = tr.tracks.map Track.track_id ∧
  (Tracker.predict env tr).next_id = tr.next_id

/-- The property asserted by claim C8: an empty track set leaves every
detection unmatched and turns each into a fresh Tentative track; an empty
detection list leaves every track unmatched (each one miss-marked), creates
no track, and contributes nothing to the gallery. -/
def C8Shape (env : Env) (tr : Tracker) (dets : List Detection) : Prop :=
  (tr.tracks = [] →
     (matchDets env tr dets).matched = [] ∧
     (∀ j, j ∈ (matchDets env tr dets).unmatched_detections ↔ j < dets.length) ∧
     (Tracker.update env tr dets).1.tracks.length = dets.length ∧
     (∀ t ∈ (Tracker.update env tr dets).1.tracks, t.state = TrackState.Tentative)) ∧
  (dets = [] →
     (matchDets env tr dets).matched = [] ∧
     (∀ k, k < tr.tracks.length → k ∈ (matchDets env tr dets).unmatched_tracks) ∧
     (matchDets env tr dets).unmatched_detections = [] ∧
     (Tracker.update env tr dets).1.next_id = tr.next_id ∧
     (afterInit env tr dets).1 =
       applyMisses tr.tracks (matchDets env tr dets).unmatched_tracks ∧
     ((∀ t ∈ tr.tracks, t.is_confirmed = true → t.features = []) →
        (fitCall env tr dets).features = [] ∧ (fitCall env tr dets).targets = []))

/-- The property asserted by claim C9: the `_match` triple partitions the
track index universe and the detection index universe — each index occurs
exactly once across the matches and the corresponding unmatched list. -/
def C9Shape (env : Env) (tr : Tracker) (dets : List Detection) : Prop :=
  ((matchDets env tr dets).matched.map Prod.fst ++
    (matchDets env tr dets).unmatched_tracks).Perm (List.range tr.tracks.length) ∧
  ((matchDets env tr dets).matched.map Prod.snd ++
    (matchDets env tr dets).unmatched_detections).Perm (List.range dets.length)

/-- The property asserted by claim C10: every `update` performs exactly one
`partial_fit` invocation; with no confirmed survivors it carries empty
arrays, and with no detections (given the between-frames invariant that
confirmed tracks hold no unflushed features) it also carries empty arrays,
while still passing the confirmed-identity list. -/
def C10Shape (env : Env) (tr : Tracker) (dets : List Detection) : Prop :=
  (Tracker.update env tr dets).2.length = 1 ∧
  (Tracker.update env tr dets).2 = [fitCall env tr dets] ∧
  (fitCall env tr dets).active_targets =
    ((tracksPruned env tr dets).filter (fun t => t.is_confirmed)).map Track.track_id ∧
  ((tracksPruned env tr dets).filter (fun t => t.is_confirmed) = [] →
     fitCall env tr dets = { features := [], targets := [], active_targets := [] }) ∧
  (dets = [] → (∀ t ∈ tr.tracks, t.is_confirmed = true → t.features = []) →
     (fitCall env tr dets).features = [] ∧ (fitCall env tr dets).targets = [])

/-! Basic lemmas about the in-place position update `setWith`. -/

theorem length_setWith (l : List Track) (i : Nat) (f : Track → Track) :
    (setWith l i f).length = l.length := by
  unfold setWith
  cases h : l[i]? with
  | none => rfl
  | some t => simp [List.length_set]

theorem setWith_getElem?_ne (l : List Track) (i : Nat) (f : Track → Track)
    {j : Nat} (h : j ≠ i) : (setWith l i f)[j]? = l[j]? := by
  unfold setWith
  cases hv : l[i]? with
  | none => rfl
  | some t => exact List.getElem?_set_ne (Ne.symm h)

theorem setWith_getElem?_self (l : List Track) (i : Nat) (f : Track → Track)
    (h : i < l.length) : (setWith l i f)[i]? = (l[i]?).map f := by
  unfold setWith
  cases hv : l[i]? with
  | none => simp [List.getElem?_eq_getElem h] at hv
  | some t => simp [List.getElem?_set_self (by simpa using h), hv]

theorem setWith_map {β : Type} (g : Track → β) (l : List Track) (i : Nat)
    (f : Track → Track) (hf : ∀ t, g (f t) = g t) :
    (setWith l i f).map g = l.map g := by
  unfold setWith
  cases hv : l[i]? with
  | none => rfl
  | some t =>
      have hlen : i < l.length := by
        by_contra hc
        simp [List.getElem?_eq_none (Nat.le_of_not_lt hc)] at hv
      have ht : l.get ⟨i, hlen⟩ = t := by
        simpa [List.getElem?_eq_getElem hlen] using hv
      rw [List.map_set, hf t, ← ht]
      apply List.ext_getElem?
      intro n
      by_cases hn : n = i
      · subst hn
        have hlen2 : n < (l.map g).length := by simpa using hlen
        simp [List.getElem?_set_self hlen2, List.getElem?_eq_getElem hlen2]
      · exact List.getElem?_set_ne (fun he => hn he.symm)

theorem mem_setWith {x : Track} {l : List Track} {i : Nat} {f : Track → Track}
    (h : x ∈ setWith l i f) : x ∈ l ∨ ∃ t, t ∈ l ∧ x = f t := by
  unfold setWith at h
  cases hv : l[i]? with
  | none => rw [hv] at h; exact Or.inl h
  | some t =>
      rw [hv] at h
      rcases List.mem_or_eq_of_mem_set h with h1 | h1
      · exact Or.inl h1
      · exact Or.inr ⟨t, List.getElem?_mem hv, h1⟩

theorem getElem?_eq_some_getD {α : Type} [Inhabited α] (l : List α) (i : Nat)
    (h : i < l.length) : l[i]? = some (l.getD i default) := by
  simp [List.getD_eq_getElem?_getD, List.getElem?_eq_getElem h]

/-! Lemmas about the matched-track update loop. -/

theorem applyMatches_nil (env : Env) (dets : List Detection) (ts : List Track) :
    applyMatches env dets ts [] = ts := rfl

theorem applyMatches_cons (env : Env) (dets : List Detection) (ts : List Track)
    (p : Nat × Nat) (ms : List (Nat × Nat)) :
    applyMatches env dets ts (p :: ms) =
      applyMatches env dets
        (setWith ts p.1 (fun t => appTrackUpdate env t (dets.getD p.2 default))) ms := rfl

theorem length_applyMatches (env : Env) (dets : List Detection)
    (ms : List (Nat × Nat)) (ts : List Track) :
    (applyMatches env dets ts ms).length = ts.length := by
  induction ms generalizing ts with
  | nil => rfl
  | cons p ms ih =>
      rw [applyMatches_cons]
      rw [ih]
      exact length_setWith ts p.1 _

theorem applyMatches_getElem?_not_mem (env : Env) (dets : List Detection)
    {ms : List (Nat × Nat)} {i : Nat} (ts : List Track)
    (h : i ∉ ms.map Prod.fst) :
    (applyMatches env dets ts ms)[i]? = ts[i]? := by
  induction ms generalizing ts with
  | nil => rfl
  | cons p ms ih =>
      rw [applyMatches_cons]
      have h1 : i ≠ p.1 := by
        intro he; exact h (by simp [he])
      have h2 : i ∉ ms.map Prod.fst := by
        intro he; exact h (by simp [he])
      rw [ih _ h2]
      exact setWith_getElem?_ne ts p.1 _ h1

theorem applyMatches_getElem?_mem (env : Env) (dets : List Detection)
    {ms : List (Nat × Nat)} {i d : Nat} (ts : List Track)
    (hnd : (ms.map Prod.fst).Nodup) (hm : (i, d) ∈ ms) (hi : i < ts.length) :
    (applyMatches env dets ts ms)[i]? =
      some (appTrackUpdate env (ts.getD i default) (dets.getD d default)) := by
  induction ms generalizing ts with
  | nil => cases hm
  | cons p ms ih =>
      rw [applyMatches_cons]
      have hnd2 : p.1 ∉ ms.map Prod.fst ∧ (ms.map Prod.fst).Nodup := by
        rw [List.map_cons] at hnd; exact List.nodup_cons.mp hnd
      rcases List.mem_cons.mp hm with he | hmem
      · have hp1 : p.1 = i := by rw [← he]
        have hp2 : p.2 = d := by rw [← he]
        have hfst : i ∉ ms.map Prod.fst := by rw [← hp1]; exact hnd2.1
        rw [applyMatches_getElem?_not_mem env dets _ hfst, hp1,
          setWith_getElem?_self ts i _ hi, getElem?_eq_some_getD ts i hi]
        simp [hp2]
      · have hiF : i ∈ ms.map Prod.fst := by
          exact List.mem_map.mpr ⟨(i, d), hmem, rfl⟩
        have hne : i ≠ p.1 := by
          intro he
          rw [← he] at hnd2; exact hnd2.1 hiF
        have hlen : i < (setWith ts p.1 (fun t => appTrackUpdate env t (dets.getD p.2 default))).length := by
          rw [length_setWith]; exact hi
        rw [ih _ hnd2.2 hmem hlen]
        have hsame : (setWith ts p.1 (fun t => appTrackUpdate env t (dets.getD p.2 default))).getD i default
            = ts.getD i default := by
          simp [List.getD_eq_getElem?_getD, setWith_getElem?_ne ts p.1 _ hne]
        rw [hsame]

theorem appTrackUpdate_track_id (env : Env) (t : Track) (d : Detection) :
    (appTrackUpdate env t d).track_id = t.track_id := rfl

theorem applyMatches_map_track_id (env : Env) (dets : List Detection)
    (ms : List (Nat × Nat)) (ts : List Track) :
    (applyMatches env dets ts ms).map Track.track_id = ts.map Track.track_id := by
  induction ms generalizing ts with
  | nil => rfl
  | cons p ms ih =>
      rw [applyMatches_cons, ih]
      exact setWith_map Track.track_id ts p.1 _ (fun t => rfl)

/-! Lemmas about `mark_missed` and the missed-track loop. -/

theorem mark_missed_track_id (t : Track) : (mark_missed t).track_id = t.track_id := by
  unfold mark_missed; split_ifs <;> rfl

theorem mark_missed_features (t : Track) : (mark_missed t).features = t.features := by
  unfold mark_missed; split_ifs <;> rfl

theorem mark_missed_of_confirmed (t : Track)
    (h : (mark_missed t).is_confirmed = true) : mark_missed t = t := by
  unfold mark_missed at *
  split_ifs at h ⊢ with h1 h2
  · simp [Track.is_confirmed] at h
  · simp [Track.is_confirmed] at h
  · rfl

theorem mark_missed_idem (t : Track) : mark_missed (mark_missed t) = mark_missed t := by
  unfold mark_missed
  split_ifs with h1 h2 <;> simp_all

theorem applyMisses_nil (ts : List Track) : applyMisses ts [] = ts := rfl

theorem applyMisses_cons (ts : List Track) (k : Nat) (uts : List Nat) :
    applyMisses ts (k :: uts) = applyMisses (setWith ts k mark_missed) uts := rfl

theorem length_applyMisses (uts : List Nat) (ts : List Track) :
    (applyMisses ts uts).length = ts.length := by
  induction uts generalizing ts with
  | nil => rfl
  | cons k uts ih =>
      rw [applyMisses_cons, ih]
      exact length_setWith ts k _

theorem applyMisses_getElem?_not_mem {uts : List Nat} {i : Nat} (ts : List Track)
    (h : i ∉ uts) : (applyMisses ts uts)[i]? = ts[i]? := by
  induction uts generalizing ts with
  | nil => rfl
  | cons k uts ih =>
      rw [applyMisses_cons]
      have h1 : i ≠ k := by intro he; exact h (by simp [he])
      have h2 : i ∉ uts := by intro he; exact h (by simp [he])
      rw [ih _ h2]
      exact setWith_getElem?_ne ts k _ h1

theorem applyMisses_getElem?_mem {uts : List Nat} {i : Nat} (ts : List Track)
    (hnd : uts.Nodup) (hm : i ∈ uts) (hi : i < ts.length) :
    (applyMisses ts uts)[i]? = some (mark_missed (ts.getD i default)) := by
  induction uts generalizing ts with
  | nil => cases hm
  | cons k uts ih =>
      rw [applyMisses_cons]
      rcases List.mem_cons.mp hm with he | hmem
      · subst he
        have hni : i ∉ uts := (List.nodup_cons.mp hnd).1
        rw [applyMisses_getElem?_not_mem _ hni, setWith_getElem?_self ts i _ hi,
          getElem?_eq_some_getD ts i hi]
        rfl
      · have hne : i ≠ k := by
          intro he; rw [← he] at hnd
          exact (List.nodup_cons.mp hnd).1 hmem
        have hlen : i < (setWith ts k mark_missed).length := by
          rw [length_setWith]; exact hi
        rw [ih _ (List.nodup_cons.mp hnd).2 hmem hlen]
        have : (setWith ts k mark_missed).getD i default = ts.getD i default := by
          rw [List.getD_eq_getElem?_getD, List.getD_eq_getElem?_getD,
            setWith_getElem?_ne ts k _ hne]
        rw [this]

theorem applyMisses_map_track_id (uts : List Nat) (ts : List Track) :
    (applyMisses ts uts).map Track.track_id = ts.map Track.track_id := by
  induction uts generalizing ts with
  | nil => rfl
  | cons k uts ih =>
      rw [applyMisses_cons, ih]
      exact setWith_map Track.track_id ts k _ mark_missed_track_id

theorem applyMisses_mem {uts : List Nat} {ts : List Track} :
    ∀ x ∈ applyMisses ts uts, ∃ t, t ∈ ts ∧ (x = t ∨ x = mark_missed t) := by
  suffices h : ∀ (l0 : List Track) (uts : List Nat) (ts : List Track),
      (∀ x ∈ ts, ∃ t, t ∈ l0 ∧ (x = t ∨ x = mark_missed t)) →
      ∀ x ∈ applyMisses ts uts, ∃ t, t ∈ l0 ∧ (x = t ∨ x = mark_missed t) by
    exact h ts uts ts (fun x hx => ⟨x, hx, Or.inl rfl⟩)
  intro l0 uts
  induction uts with
  | nil => intro ts hts x hx; exact hts x hx
  | cons k uts ih =>
      intro ts hts x hx
      rw [applyMisses_cons] at hx
      refine ih _ ?_ x hx
      intro y hy
      rcases mem_setWith hy with hy1 | ⟨t, ht, hy2⟩
      · exact hts y hy1
      · rcases hts t ht with ⟨t0, ht0, he | he⟩
        · exact ⟨t0, ht0, Or.inr (by rw [hy2, he])⟩
        · exact ⟨t0, ht0, Or.inr (by rw [hy2, he, mark_missed_idem])⟩

/-! Lemmas about new-track initiation. -/

theorem initTracks_eq (env : Env) (ni ma : Nat) (dets : List Detection)
    (uds : List Nat) (ts : List Track) (nid : Nat) :
    initTracks env ni ma dets uds ts nid =
      (ts ++ newTracksFor env ni ma dets uds nid, nid + uds.length) := by
  induction uds generalizing ts nid with
  | nil => simp [initTracks, newTracksFor]
  | cons d rest ih =>
      rw [initTracks, newTracksFor, ih]
      simp [List.append_assoc]
      omega

theorem newTracksFor_length (env : Env) (ni ma : Nat) (dets : List Detection)
    (uds : List Nat) (nid : Nat) :
    (newTracksFor env ni ma dets uds nid).length = uds.length := by
  induction uds generalizing nid with
  | nil => rfl
  | cons d rest ih => simp [newTracksFor, ih]

theorem newTracksFor_map_track_id (env : Env) (ni ma : Nat) (dets : List Detection)
    (uds : List Nat) (nid : Nat) :
    (newTracksFor env ni ma dets uds nid).map Track.track_id =
      List.range' nid uds.length := by
  induction uds generalizing nid with
  | nil => rfl
  | cons d rest ih => simp [newTracksFor, newTrack, ih, List.range'_succ]

theorem mem_newTracksFor {env : Env} {ni ma : Nat} {dets : List Detection}
    {uds : List Nat} {nid : Nat} {x : Track}
    (h : x ∈ newTracksFor env ni ma dets uds nid) :
    x.state = TrackState.Tentative := by
  induction uds generalizing nid with
  | nil => cases h
  | cons d rest ih =>
      rw [newTracksFor] at h
      rcases List.mem_cons.mp h with he | hmem
      · rw [he]; rfl
      · exact ih hmem

/-! Lemmas about the gallery-refresh loop. -/

theorem refreshLoop_fst (l : List Track) :
    (refreshLoop l).1 =
      l.map (fun t => if t.is_confirmed then { t with features := [] } else t) := by
  induction l with
  | nil => rfl
  | cons t ts ih =>
      rw [refreshLoop]
      by_cases h : t.is_confirmed <;> simp [h, ih]

theorem refreshLoop_features (l : List Track) :
    (refreshLoop l).2.1 =
      ((l.filter (fun t => t.is_confirmed)).map Track.features).flatten := by
  induction l with
  | nil => rfl
  | cons t ts ih =>
      rw [refreshLoop]
      by_cases h : t.is_confirmed <;> simp [h, ih, List.filter_cons]

theorem refreshLoop_targets (l : List Track) :
    (refreshLoop l).2.2 =
      ((l.filter (fun t => t.is_confirmed)).map
        (fun t => t.features.map (fun _ => t.track_id))).flatten := by
  induction l with
  | nil => rfl
  | cons t ts ih =>
      rw [refreshLoop]
      by_cases h : t.is_confirmed <;> simp [h, ih, List.filter_cons]

/-! Lemmas about the confirmed/unconfirmed index partition. -/

theorem mem_confirmedIndices {tracks : List Track} {i : Nat} :
    i ∈ confirmedIndices tracks ↔
      i < tracks.length ∧ (tracks.getD i default).is_confirmed = true := by
  simp [confirmedIndices, List.mem_filter, List.mem_range]

theorem mem_unconfirmedIndices {tracks : List Track} {i : Nat} :
    i ∈ unconfirmedIndices tracks ↔
      i < tracks.length ∧ (tracks.getD i default).is_confirmed = false := by
  simp [unconfirmedIndices, List.mem_filter, List.mem_range]

theorem nodup_confirmedIndices (tracks : List Track) :
    (confirmedIndices tracks).Nodup :=
  List.Nodup.filter _ (List.nodup_range _)

theorem nodup_unconfirmedIndices (tracks : List Track) :
    (unconfirmedIndices tracks).Nodup :=
  List.Nodup.filter _ (List.nodup_range _)

theorem disjoint_confirmed_unconfirmed (tracks : List Track) :
    (confirmedIndices tracks).Disjoint (unconfirmedIndices tracks) := by
  intro i hc hu
  rcases mem_confirmedIndices.mp hc with ⟨_, h1⟩
  rcases mem_unconfirmedIndices.mp hu with ⟨_, h2⟩
  rw [h1] at h2
  cases h2

theorem perm_confirmed_unconfirmed (tracks : List Track) :
    (confirmedIndices tracks ++ unconfirmedIndices tracks).Perm
      (List.range tracks.length) :=
  List.filter_append_perm _ _

/-! Assembly of the two solver contracts into a partition of all indices. -/

theorem add_assemble {M : Type} [AddCommMonoid M] {raF raU A1 A2 U C rbF rbU univ : M}
    (h1 : raF + raU = C) (h2 : rbF + rbU = U + A1) (h3 : A1 + A2 = raU)
    (h4 : C + U = univ) : (raF + rbF) + (A2 + rbU) = univ := by
  calc raF + rbF + (A2 + rbU) = raF + A2 + (rbF + rbU) := by abel
    _ = raF + A2 + (U + A1) := by rw [h2]
    _ = raF + (A1 + A2) + U := by abel
    _ = raF + raU + U := by rw [h3]
    _ = C + U := by rw [h1]
    _ = univ := h4

theorem perm_assemble {α : Type} {raF raU A1 A2 U C rbF rbU univ : List α}
    (h1 : (raF ++ raU).Perm C) (h2 : (rbF ++ rbU).Perm (U ++ A1))
    (h3 : (A1 ++ A2).Perm raU) (h4 : (C ++ U).Perm univ) :
    ((raF ++ rbF) ++ (A2 ++ rbU)).Perm univ := by
  rw [← Multiset.coe_eq_coe] at h1 h2 h3 h4 ⊢
  simp only [← Multiset.coe_add] at h1 h2 h3 h4 ⊢
  exact add_assemble h1 h2 h3 h4

theorem add_assemble2 {M : Type} [AddCommMonoid M] {raS raUD rbS rbUD univ : M}
    (h1 : raS + raUD = univ) (h2 : rbS + rbUD = raUD) :
    (raS + rbS) + rbUD = univ := by
  calc raS + rbS + rbUD = raS + (rbS + rbUD) := by abel
    _ = raS + raUD := by rw [h2]
    _ = univ := h1

theorem perm_assemble2 {α : Type} {raS raUD rbS rbUD univ : List α}
    (h1 : (raS ++ raUD).Perm univ) (h2 : (rbS ++ rbUD).Perm raUD) :
    ((raS ++ rbS) ++ rbUD).Perm univ := by
  rw [← Multiset.coe_eq_coe] at h1 h2 ⊢
  simp only [← Multiset.coe_add] at h1 h2 ⊢
  exact add_assemble2 h1 h2

theorem stageA_ok (env : Env) (tr : Tracker) (dets : List Detection)
    (hE : EnvSolversOk env) :
    SolverOk (confirmedIndices tr.tracks) (List.range dets.length)
      (stageA env tr dets) :=
  hE.1 _ _ _ _ _ _

theorem stageB_ok (env : Env) (tr : Tracker) (dets : List Detection)
    (hE : EnvSolversOk env) :
    SolverOk (iou_track_candidates env tr dets)
      (stageA env tr dets).unmatched_detections (stageB env tr dets) :=
  hE.2 _ _ _ _ _ _

theorem filterA_perm (env : Env) (tr : Tracker) (dets : List Detection) :
    ((stageA env tr dets).unmatched_tracks.filter
        (fun k => (tr.tracks.getD k default).time_since_update == 1) ++
      unmatchedTracksA env tr dets).Perm (stageA env tr dets).unmatched_tracks := by
  unfold unmatchedTracksA
  exact List.filter_append_perm _ _

theorem stageA_unmatched_subset (env : Env) (tr : Tracker) (dets : List Detection)
    (hE : EnvSolversOk env) :
    (stageA env tr dets).unmatched_tracks ⊆ confirmedIndices tr.tracks :=
  fun _ hk => (stageA_ok env tr dets hE).1.subset (List.mem_append_right _ hk)

theorem stageA_append_nodup (env : Env) (tr : Tracker) (dets : List Detection)
    (hE : EnvSolversOk env) :
    ((stageA env tr dets).matched.map Prod.fst ++
      (stageA env tr dets).unmatched_tracks).Nodup :=
  ((stageA_ok env tr dets hE).1.nodup_iff).mpr (nodup_confirmedIndices _)

theorem stageA_unmatched_nodup (env : Env) (tr : Tracker) (dets : List Detection)
    (hE : EnvSolversOk env) : (stageA env tr dets).unmatched_tracks.Nodup :=
  (List.nodup_append.mp (stageA_append_nodup env tr dets hE)).2.1

theorem nodup_iouCandidates (env : Env) (tr : Tracker) (dets : List Detection)
    (hE : EnvSolversOk env) : (iou_track_candidates env tr dets).Nodup := by
  unfold iou_track_candidates
  rw [List.nodup_append]
  refine ⟨nodup_unconfirmedIndices _,
    List.Nodup.filter _ (stageA_unmatched_nodup env tr dets hE), ?_⟩
  intro k hu hf
  have hk1 : k ∈ (stageA env tr dets).unmatched_tracks := (List.mem_filter.mp hf).1
  have hk2 : k ∈ confirmedIndices tr.tracks :=
    stageA_unmatched_subset env tr dets hE hk1
  exact disjoint_confirmed_unconfirmed tr.tracks hk2 hu

theorem stageB_append_nodup (env : Env) (tr : Tracker) (dets : List Detection)
    (hE : EnvSolversOk env) :
    ((stageB env tr dets).matched.map Prod.fst ++
      (stageB env tr dets).unmatched_tracks).Nodup :=
  ((stageB_ok env tr dets hE).1.nodup_iff).mpr (nodup_iouCandidates env tr dets hE)

theorem stageB_unmatched_nodup (env : Env) (tr : Tracker) (dets : List Detection)
    (hE : EnvSolversOk env) : (stageB env tr dets).unmatched_tracks.Nodup :=
  (List.nodup_append.mp (stageB_append_nodup env tr dets hE)).2.1

theorem stageB_unmatched_subset (env : Env) (tr : Tracker) (dets : List Detection)
    (hE : EnvSolversOk env) :
    (stageB env tr dets).unmatched_tracks ⊆ iou_track_candidates env tr dets :=
  fun _ hk => (stageB_ok env tr dets hE).1.subset (List.mem_append_right _ hk)

theorem disjoint_A2_stageB (env : Env) (tr : Tracker) (dets : List Detection)
    (hE : EnvSolversOk env) :
    (unmatchedTracksA env tr dets).Disjoint (stageB env tr dets).unmatched_tracks := by
  intro k hA hB
  have h1 := List.mem_filter.mp hA
  have htsu : (tr.tracks.getD k default).time_since_update ≠ 1 := by
    have := h1.2
    exact bne_iff_ne.mp this
  have hconf : k ∈ confirmedIndices tr.tracks :=
    stageA_unmatched_subset env tr dets hE h1.1
  have hcand := stageB_unmatched_subset env tr dets hE hB
  unfold iou_track_candidates at hcand
  rcases List.mem_append.mp hcand with hu | hf
  · exact disjoint_confirmed_unconfirmed tr.tracks hconf hu
  · have := (List.mem_filter.mp hf).2
    exact htsu (by simpa using this)

/-- Under the solver contract the Python `list(set(...))` deduplication is
the identity: the two leftover lists are already disjoint and duplicate
free. -/
theorem unmatched_tracks_eq (env : Env) (tr : Tracker) (dets : List Detection)
    (hE : EnvSolversOk env) :
    (matchDets env tr dets).unmatched_tracks =
      unmatchedTracksA env tr dets ++ (stageB env tr dets).unmatched_tracks := by
  show (unmatchedTracksA env tr dets ++ (stageB env tr dets).unmatched_tracks).dedup = _
  rw [List.dedup_eq_self]
  rw [List.nodup_append]
  exact ⟨List.Nodup.filter _ (stageA_unmatched_nodup env tr dets hE),
    stageB_unmatched_nodup env tr dets hE,
    disjoint_A2_stageB env tr dets hE⟩

/-- The merged `_match` output partitions the track index universe. -/
theorem matchDets_tracks_perm (env : Env) (tr : Tracker) (dets : List Detection)
    (hE : EnvSolversOk env) :
    ((matchDets env tr dets).matched.map Prod.fst ++
      (matchDets env tr dets).unmatched_tracks).Perm
      (List.range tr.tracks.length) := by
  rw [unmatched_tracks_eq env tr dets hE]
  show ((stageA env tr dets).matched ++ (stageB env tr dets).matched).map Prod.fst
      ++ _ |>.Perm _
  rw [List.map_append]
  exact perm_assemble (stageA_ok env tr dets hE).1
    (stageB_ok env tr dets hE).1 (filterA_perm env tr dets)
    (perm_confirmed_unconfirmed tr.tracks)

/-- The merged `_match` output partitions the detection index universe. -/
theorem matchDets_dets_perm (env : Env) (tr : Tracker) (dets : List Detection)
    (hE : EnvSolversOk env) :
    ((matchDets env tr dets).matched.map Prod.snd ++
      (matchDets env tr dets).unmatched_detections).Perm
      (List.range dets.length) := by
  show ((stageA env tr dets).matched ++ (stageB env tr dets).matched).map Prod.snd
      ++ (stageB env tr dets).unmatched_detections |>.Perm _
  rw [List.map_append]
  exact perm_assemble2 (stageA_ok env tr dets hE).2 (stageB_ok env tr dets hE).2

theorem matchDets_full_nodup (env : Env) (tr : Tracker) (dets : List Detection)
    (hE : EnvSolversOk env) :
    ((matchDets env tr dets).matched.map Prod.fst ++
      (matchDets env tr dets).unmatched_tracks).Nodup :=
  ((matchDets_tracks_perm env tr dets hE).nodup_iff).mpr (List.nodup_range _)

theorem matched_fst_nodup (env : Env) (tr : Tracker) (dets : List Detection)
    (hE : EnvSolversOk env) :
    ((matchDets env tr dets).matched.map Prod.fst).Nodup :=
  (List.nodup_append.mp (matchDets_full_nodup env tr dets hE)).1

theorem disjoint_matched_unmatched (env : Env) (tr : Tracker) (dets : List Detection)
    (hE : EnvSolversOk env) :
    ((matchDets env tr dets).matched.map Prod.fst).Disjoint
      (matchDets env tr dets).unmatched_tracks :=
  (List.nodup_append.mp (matchDets_full_nodup env tr dets hE)).2.2

theorem matched_fst_lt (env : Env) (tr : Tracker) (dets : List Detection)
    (hE : EnvSolversOk env) {p : Nat × Nat}
    (hp : p ∈ (matchDets env tr dets).matched) : p.1 < tr.tracks.length := by
  have : p.1 ∈ List.range tr.tracks.length :=
    (matchDets_tracks_perm env tr dets hE).subset
      (List.mem_append_left _ (List.mem_map.mpr ⟨p, hp, rfl⟩))
  exact List.mem_range.mp this

theorem matched_snd_lt (env : Env) (tr : Tracker) (dets : List Detection)
    (hE : EnvSolversOk env) {p : Nat × Nat}
    (hp : p ∈ (matchDets env tr dets).matched) : p.2 < dets.length := by
  have : p.2 ∈ List.range dets.length :=
    (matchDets_dets_perm env tr dets hE).subset
      (List.mem_append_left _ (List.mem_map.mpr ⟨p, hp, rfl⟩))
  exact List.mem_range.mp this

theorem unmatched_lt (env : Env) (tr : Tracker) (dets : List Detection)
    (hE : EnvSolversOk env) {k : Nat}
    (hk : k ∈ (matchDets env tr dets).unmatched_tracks) : k < tr.tracks.length := by
  have : k ∈ List.range tr.tracks.length :=
    (matchDets_tracks_perm env tr dets hE).subset (List.mem_append_right _ hk)
  exact List.mem_range.mp this

theorem afterInit_fst (env : Env) (tr : Tracker) (dets : List Detection) :
    (afterInit env tr dets).1 =
      tracksAfterApply env tr dets ++
        newTracksFor env tr.n_init tr.max_age dets
          (matchDets env tr dets).unmatched_detections tr.next_id := by
  rw [afterInit, initTracks_eq]

theorem afterInit_snd (env : Env) (tr : Tracker) (dets : List Detection) :
    (afterInit env tr dets).2 =
      tr.next_id + (matchDets env tr dets).unmatched_detections.length := by
  rw [afterInit, initTracks_eq]

theorem length_tracksAfterApply (env : Env) (tr : Tracker) (dets : List Detection) :
    (tracksAfterApply env tr dets).length = tr.tracks.length := by
  unfold tracksAfterApply
  rw [length_applyMisses, length_applyMatches]

theorem refreshLoop_map_obs {β : Type} (g : Track → β)
    (hg : ∀ t, g { t with features := [] } = g t) (l : List Track) :
    (refreshLoop l).1.map g = l.map g := by
  rw [refreshLoop_fst, List.map_map]
  apply List.map_congr_left
  intro a _
  by_cases hc : a.is_confirmed <;> simp [Function.comp, hc, hg]

/-! The claims. -/

/-- C2: Stage A runs the cascade solver over exactly the confirmed track
indices and all detections, with the gated appearance cost function
(appearance distance first, then the motion-consistency gate); not-confirmed
tracks never appear in the Stage A candidate set. -/
theorem stageA_runs_cascade_on_confirmed (env : Env) (tr : Tracker)
    (dets : List Detection) :
    stageA env tr dets =
      env.matching_cascade (gated_metric env) env.matching_threshold tr.max_age
        tr.tracks dets (confirmedIndices tr.tracks) ∧
    (∀ i, i ∈ confirmedIndices tr.tracks ↔
       i < tr.tracks.length ∧ (tr.tracks.getD i default).is_confirmed = true) ∧
    (∀ i, i < tr.tracks.length → (tr.tracks.getD i default).is_confirmed = false →
       i ∉ confirmedIndices tr.tracks) ∧
    (∀ ts ds ti di, gated_metric env ts ds ti di =
       env.gateCost
         (env.metricDistance (di.map (fun j => (ds.getD j default).feature))
           (ti.map (fun j => (ts.getD j default).track_id)))
         ts ds ti di) := by
  refine ⟨rfl, fun i => mem_confirmedIndices, ?_, fun ts ds ti di => rfl⟩
  intro i _ hfalse hc
  rcases mem_confirmedIndices.mp hc with ⟨_, htrue⟩
  rw [hfalse] at htrue
  cases htrue

/-- C4: the merged `_match` result is Stage A matches followed by Stage B
matches; its unmatched tracks are the deduplicated union of the Stage A
leftovers that skipped Stage B and the Stage B leftovers; its unmatched
detections are exactly Stage B's leftovers. -/
theorem match_merge_structure (env : Env) (tr : Tracker) (dets : List Detection) :
    (matchDets env tr dets).matched =
      (stageA env tr dets).matched ++ (stageB env tr dets).matched ∧
    (∀ k, k ∈ (matchDets env tr dets).unmatched_tracks ↔
       (k ∈ unmatchedTracksA env tr dets ∨
        k ∈ (stageB env tr dets).unmatched_tracks)) ∧
    (matchDets env tr dets).unmatched_tracks.Nodup ∧
    (matchDets env tr dets).unmatched_detections =
      (stageB env tr dets).unmatched_detections := by
  refine ⟨rfl, ?_, ?_, rfl⟩
  · intro k
    show k ∈ (unmatchedTracksA env tr dets ++
        (stageB env tr dets).unmatched_tracks).dedup ↔ _
    rw [List.mem_dedup, List.mem_append]
  · show (unmatchedTracksA env tr dets ++
        (stageB env tr dets).unmatched_tracks).dedup.Nodup
    exact List.nodup_dedup _

/-- C9: the `_match` triple is a partition — every track index and every
detection index appears exactly once across the matches and the
corresponding unmatched list. -/
theorem match_result_is_partition (env : Env) (tr : Tracker) (dets : List Detection)
    (hE : EnvSolversOk env) : C9Shape env tr dets :=
  ⟨matchDets_tracks_perm env tr dets hE, matchDets_dets_perm env tr dets hE⟩

/-- C5: after `update` no surviving track is deleted; the survivors are
exactly the non-deleted tracks of the post-apply list, in their original
relative order (the gallery refresh only clears confirmed feature lists). -/
theorem update_prunes_deleted (env : Env) (tr : Tracker) (dets : List Detection) :
    (∀ t ∈ ((Tracker.update env tr dets).1).tracks, t.is_deleted = false) ∧
    ((Tracker.update env tr dets).1).tracks.map
        (fun t => (t.track_id, t.state, t.time_since_update)) =
      (tracksPruned env tr dets).map
        (fun t => (t.track_id, t.state, t.time_since_update)) ∧
    tracksPruned env tr dets =
      (afterInit env tr dets).1.filter (fun t => !t.is_deleted) ∧
    (((Tracker.update env tr dets).1).tracks.map Track.track_id).Sublist
      ((afterInit env tr dets).1.map Track.track_id) := by
  have hu : (Tracker.update env tr dets).1.tracks =
      (refreshLoop (tracksPruned env tr dets)).1 := rfl
  refine ⟨?_, ?_, rfl, ?_⟩
  · intro t ht
    rw [hu, refreshLoop_fst] at ht
    rcases List.mem_map.mp ht with ⟨s, hs, rfl⟩
    unfold tracksPruned at hs
    have hdel : s.is_deleted = false := by
      have := (List.mem_filter.mp hs).2
      simpa using this
    by_cases hc : s.is_confirmed <;> simp [hc] <;> exact hdel
  · rw [hu]
    exact refreshLoop_map_obs
      (fun t => (t.track_id, t.state, t.time_since_update)) (fun t => rfl) _
  · rw [hu, refreshLoop_map_obs Track.track_id (fun t => rfl)]
    exact List.Sublist.map _ (List.filter_sublist _)

/-- C7: the gallery refresh hands `partial_fit` exactly the concatenated
feature lists of the pruned confirmed tracks, tagged by their identities,
together with the confirmed-identity list, and afterwards every confirmed
track's feature list is empty. -/
theorem gallery_refresh_exact (env : Env) (tr : Tracker) (dets : List Detection) :
    (fitCall env tr dets).features =
      (((tracksPruned env tr dets).filter (fun t => t.is_confirmed)).map
        Track.features).flatten ∧
    (fitCall env tr dets).targets =
      (((tracksPruned env tr dets).filter (fun t => t.is_confirmed)).map
        (fun t => t.features.map (fun _ => t.track_id))).flatten ∧
    (fitCall env tr dets).active_targets =
      ((tracksPruned env tr dets).filter (fun t => t.is_confirmed)).map
        Track.track_id ∧
    (Tracker.update env tr dets).2 = [fitCall env tr dets] ∧
    (∀ t ∈ (Tracker.update env tr dets).1.tracks,
       t.is_confirmed = true → t.features = []) := by
  refine ⟨refreshLoop_features _, refreshLoop_targets _, rfl, rfl, ?_⟩
  intro t ht hc
  have hu : (Tracker.update env tr dets).1.tracks =
      (refreshLoop (tracksPruned env tr dets)).1 := rfl
  rw [hu, refreshLoop_fst] at ht
  rcases List.mem_map.mp ht with ⟨s, _, rfl⟩
  by_cases hs : s.is_confirmed
  · simp [hs]
  · rw [if_neg hs] at hc
    exact absurd hc hs

/-- C1: the Stage B candidate set is exactly the not-confirmed indices plus
the Stage-A leftovers with `time_since_update = 1`; a Stage-A-unmatched
confirmed index with `time_since_update ≠ 1` is excluded from the candidate
set, never matched by Stage B, and appears in the final unmatched output. -/
theorem stageB_candidate_set_exact (env : Env) (tr : Tracker) (dets : List Detection)
    (hE : EnvSolversOk env) : C1Shape env tr dets := by
  constructor
  · intro k
    unfold iou_track_candidates
    rw [List.mem_append, List.mem_filter]
    simp only [beq_iff_eq]
  · intro k hk hconf htsu
    have hnc : k ∉ iou_track_candidates env tr dets := by
      intro hc
      unfold iou_track_candidates at hc
      rcases List.mem_append.mp hc with hu | hf
      · rcases mem_unconfirmedIndices.mp hu with ⟨_, hfalse⟩
        rw [hconf] at hfalse
        cases hfalse
      · have := (List.mem_filter.mp hf).2
        exact htsu (by simpa using this)
    refine ⟨hnc, ?_, ?_⟩
    · intro hf
      exact hnc ((stageB_ok env tr dets hE).1.subset (List.mem_append_left _ hf))
    · rw [unmatched_tracks_eq env tr dets hE]
      apply List.mem_append_left
      exact List.mem_filter.mpr ⟨hk, bne_iff_ne.mpr htsu⟩

/-- C3: `update` applies the matching outcome exactly — each matched track
position receives that track's update with its assigned detection, each
unmatched track position is miss-marked, and each unmatched detection
appends a fresh Tentative track with the next identity, advancing the
counter once per new track. -/
theorem update_applies_match_outcomes (env : Env) (tr : Tracker)
    (dets : List Detection) (hE : EnvSolversOk env) : C3Shape env tr dets := by
  refine ⟨?_, ?_, afterInit_fst env tr dets, afterInit_snd env tr dets,
    fun ni ma d i => ⟨rfl, rfl, rfl, rfl⟩, newTracksFor_map_track_id _ _ _ _ _ _⟩
  · intro p hp
    have hlt : p.1 < tr.tracks.length := matched_fst_lt env tr dets hE hp
    rw [afterInit_fst, List.getElem?_append,
      if_pos (by rw [length_tracksAfterApply]; exact hlt)]
    unfold tracksAfterApply
    have hnm : p.1 ∉ (matchDets env tr dets).unmatched_tracks :=
      fun hmem => disjoint_matched_unmatched env tr dets hE
        (List.mem_map.mpr ⟨p, hp, rfl⟩) hmem
    rw [applyMisses_getElem?_not_mem _ hnm]
    exact applyMatches_getElem?_mem env dets _ (matched_fst_nodup env tr dets hE)
      (by simpa using hp) hlt
  · intro k hk
    have hlt : k < tr.tracks.length := unmatched_lt env tr dets hE hk
    rw [afterInit_fst, List.getElem?_append,
      if_pos (by rw [length_tracksAfterApply]; exact hlt)]
    unfold tracksAfterApply
    have hnd : (matchDets env tr dets).unmatched_tracks.Nodup :=
      (List.nodup_append.mp (matchDets_full_nodup env tr dets hE)).2.1
    have hlen : k < (applyMatches env dets tr.tracks
        (matchDets env tr dets).matched).length := by
      rw [length_applyMatches]; exact hlt
    rw [applyMisses_getElem?_mem _ hnd hk hlen]
    have hnm : k ∉ (matchDets env tr dets).matched.map Prod.fst :=
      fun hf => disjoint_matched_unmatched env tr dets hE hf hk
    have hsame : (applyMatches env dets tr.tracks
        (matchDets env tr dets).matched).getD k default
        = tr.tracks.getD k default := by
      simp [List.getD_eq_getElem?_getD,
        applyMatches_getElem?_not_mem env dets _ hnm]
    rw [hsame]

/-! Identity bookkeeping across operations (claim C6). -/

theorem update_next_id (env : Env) (tr : Tracker) (dets : List Detection) :
    (Tracker.update env tr dets).1.next_id =
      tr.next_id + (matchDets env tr dets).unmatched_detections.length :=
  afterInit_snd env tr dets

theorem update_map_track_id_sublist (env : Env) (tr : Tracker) (dets : List Detection) :
    ((Tracker.update env tr dets).1.tracks.map Track.track_id).Sublist
      (tr.tracks.map Track.track_id ++
        List.range' tr.next_id (matchDets env tr dets).unmatched_detections.length) := by
  show ((refreshLoop (tracksPruned env tr dets)).1.map Track.track_id).Sublist _
  rw [refreshLoop_map_obs Track.track_id (fun t => rfl)]
  have h2 : ((tracksPruned env tr dets).map Track.track_id).Sublist
      ((afterInit env tr dets).1.map Track.track_id) :=
    List.Sublist.map _ (List.filter_sublist _)
  have h3 : (afterInit env tr dets).1.map Track.track_id =
      tr.tracks.map Track.track_id ++
        List.range' tr.next_id (matchDets env tr dets).unmatched_detections.length := by
    rw [afterInit_fst, List.map_append, newTracksFor_map_track_id]
    congr 1
    unfold tracksAfterApply
    rw [applyMisses_map_track_id, applyMatches_map_track_id]
  rw [h3] at h2
  exact h2

theorem predict_map_track_id (env : Env) (tr : Tracker) :
    (Tracker.predict env tr).tracks.map Track.track_id =
      tr.tracks.map Track.track_id := by
  show (tr.tracks.map (appTrackPredict env)).map Track.track_id = _
  rw [List.map_map]
  exact List.map_congr_left (fun a _ => rfl)

theorem update_ids_cases (env : Env) (tr : Tracker) (dets : List Detection)
    {t : Track} (ht : t ∈ (Tracker.update env tr dets).1.tracks) :
    t.track_id ∈ tr.tracks.map Track.track_id ∨
      (tr.next_id ≤ t.track_id ∧
        t.track_id < (Tracker.update env tr dets).1.next_id) := by
  have hmem : t.track_id ∈ (Tracker.update env tr dets).1.tracks.map Track.track_id :=
    List.mem_map.mpr ⟨t, ht, rfl⟩
  have hin := (update_map_track_id_sublist env tr dets).subset hmem
  rcases List.mem_append.mp hin with h | h
  · exact Or.inl h
  · right
    rcases List.mem_range'.mp h with ⟨i, hi, he⟩
    rw [update_next_id]
    omega

theorem stepOp_next_mono (env : Env) (tr : Tracker) (op : Op) :
    tr.next_id ≤ (stepOp env tr op).next_id := by
  cases op with
  | predictOp => exact Nat.le_refl _
  | updateOp dets =>
      show tr.next_id ≤ (Tracker.update env tr dets).1.next_id
      rw [update_next_id]
      exact Nat.le_add_right _ _

theorem stepOp_invariant (env : Env) (tr : Tracker) (op : Op)
    (h : ∀ t ∈ tr.tracks, t.track_id < tr.next_id) :
    ∀ t ∈ (stepOp env tr op).tracks, t.track_id < (stepOp env tr op).next_id := by
  cases op with
  | predictOp =>
      intro t ht
      rcases List.mem_map.mp ht with ⟨s, hs, rfl⟩
      exact h s hs
  | updateOp dets =>
      intro t ht
      rcases update_ids_cases env tr dets ht with hold | ⟨_, hlt⟩
      · rcases List.mem_map.mp hold with ⟨s, hs, hse⟩
        show t.track_id < (Tracker.update env tr dets).1.next_id
        rw [← hse]
        exact lt_of_lt_of_le (h s hs) (stepOp_next_mono env tr (Op.updateOp dets))
      · exact hlt

theorem stepOp_id_mem_cases (env : Env) (tr : Tracker) (op : Op) {n : Nat}
    (h : n ∈ (stepOp env tr op).tracks.map Track.track_id) :
    n ∈ tr.tracks.map Track.track_id ∨ tr.next_id ≤ n := by
  rcases List.mem_map.mp h with ⟨t, ht, rfl⟩
  cases op with
  | predictOp =>
      rcases List.mem_map.mp ht with ⟨s, hs, rfl⟩
      exact Or.inl (List.mem_map.mpr ⟨s, hs, rfl⟩)
  | updateOp dets =>
      rcases update_ids_cases env tr dets ht with hold | ⟨hle, _⟩
      · exact Or.inl hold
      · exact Or.inr hle

theorem runOps_next_mono (env : Env) (ops : List Op) :
    ∀ tr : Tracker, tr.next_id ≤ (runOps env tr ops).next_id := by
  induction ops with
  | nil => intro tr; exact Nat.le_refl _
  | cons op ops ih =>
      intro tr
      exact le_trans (stepOp_next_mono env tr op) (ih (stepOp env tr op))

theorem runOps_invariant (env : Env) (ops : List Op) :
    ∀ tr : Tracker, (∀ t ∈ tr.tracks, t.track_id < tr.next_id) →
      ∀ t ∈ (runOps env tr ops).tracks, t.track_id < (runOps env tr ops).next_id := by
  induction ops with
  | nil => intro tr h; exact h
  | cons op ops ih =>
      intro tr h
      exact ih (stepOp env tr op) (stepOp_invariant env tr op h)

theorem runOps_id_mem_cases (env : Env) (ops : List Op) :
    ∀ (tr : Tracker) {n : Nat},
      n ∈ (runOps env tr ops).tracks.map Track.track_id →
      n ∈ tr.tracks.map Track.track_id ∨ tr.next_id ≤ n := by
  induction ops with
  | nil => intro tr n h; exact Or.inl h
  | cons op ops ih =>
      intro tr n h
      rcases ih (stepOp env tr op) h with h1 | h1
      · exact stepOp_id_mem_cases env tr op h1
      · exact Or.inr (le_trans (stepOp_next_mono env tr op) h1)

/-- C6: across any sequence of predict/update operations, every live
identity stays below the next-identity counter, the counter is monotone,
surviving identities are inherited or fresh, each `update` assigns exactly
the next consecutive block of identities to its new tracks (so identities
are strictly increasing in creation order and never reused), and `predict`
changes no identity. -/
theorem track_ids_monotone_never_reused (env : Env) (ops : List Op) (tr : Tracker)
    (h : ∀ t ∈ tr.tracks, t.track_id < tr.next_id) : C6Shape env ops tr := by
  refine ⟨runOps_invariant env ops tr h, runOps_next_mono env ops tr, ?_,
    fun dets => ⟨update_next_id env tr dets, update_map_track_id_sublist env tr dets⟩,
    predict_map_track_id env tr, rfl⟩
  intro t ht
  exact runOps_id_mem_cases env ops tr (List.mem_map.mpr ⟨t, ht, rfl⟩)

/-! Degenerate inputs: empty track set and empty detection list. -/

theorem matchDets_empty_tracks (env : Env) (tr : Tracker) (dets : List Detection)
    (hE : EnvSolversOk env) (h0 : tr.tracks = []) :
    (matchDets env tr dets).matched = [] ∧
    (stageA env tr dets).unmatched_tracks = [] ∧
    (matchDets env tr dets).unmatched_tracks = [] ∧
    ((matchDets env tr dets).unmatched_detections).Perm (List.range dets.length) := by
  have hA := stageA_ok env tr dets hE
  have hCnil : confirmedIndices tr.tracks = [] := by rw [h0]; rfl
  have hUnil : unconfirmedIndices tr.tracks = [] := by rw [h0]; rfl
  have h1 : (stageA env tr dets).matched.map Prod.fst ++
      (stageA env tr dets).unmatched_tracks = [] := by
    have h := hA.1
    rw [hCnil] at h
    exact h.eq_nil
  rcases List.append_eq_nil.mp h1 with ⟨h2, h3⟩
  have hraM : (stageA env tr dets).matched = [] := List.map_eq_nil_iff.mp h2
  have hcand : iou_track_candidates env tr dets = [] := by
    unfold iou_track_candidates
    rw [hUnil, h3]
    rfl
  have hB := stageB_ok env tr dets hE
  have h4 : (stageB env tr dets).matched.map Prod.fst ++
      (stageB env tr dets).unmatched_tracks = [] := by
    have h := hB.1
    rw [hcand] at h
    exact h.eq_nil
  rcases List.append_eq_nil.mp h4 with ⟨h5, h6⟩
  have hrbM : (stageB env tr dets).matched = [] := List.map_eq_nil_iff.mp h5
  refine ⟨?_, h3, ?_, ?_⟩
  · show (stageA env tr dets).matched ++ (stageB env tr dets).matched = []
    rw [hraM, hrbM]
    rfl
  · show (unmatchedTracksA env tr dets ++
        (stageB env tr dets).unmatched_tracks).dedup = []
    unfold unmatchedTracksA
    rw [h3, h6]
    rfl
  · have hA2 := hA.2
    rw [hraM] at hA2
    simp only [List.map_nil, List.nil_append] at hA2
    have hB2 := hB.2
    rw [hrbM] at hB2
    simp only [List.map_nil, List.nil_append] at hB2
    exact hB2.trans hA2

theorem update_empty_tracks (env : Env) (tr : Tracker) (dets : List Detection)
    (hE : EnvSolversOk env) (h0 : tr.tracks = []) :
    (Tracker.update env tr dets).1.tracks.length = dets.length ∧
    (∀ t ∈ (Tracker.update env tr dets).1.tracks,
       t.state = TrackState.Tentative) := by
  obtain ⟨hm, _, hut, hud⟩ := matchDets_empty_tracks env tr dets hE h0
  have hta : tracksAfterApply env tr dets = [] := by
    unfold tracksAfterApply
    rw [hm, hut, h0]
    rfl
  have hai : (afterInit env tr dets).1 =
      newTracksFor env tr.n_init tr.max_age dets
        (matchDets env tr dets).unmatched_detections tr.next_id := by
    rw [afterInit_fst, hta]
    rfl
  have hall : ∀ x ∈ (afterInit env tr dets).1, x.state = TrackState.Tentative := by
    rw [hai]
    intro x hx
    exact mem_newTracksFor hx
  have hprune : tracksPruned env tr dets = (afterInit env tr dets).1 := by
    unfold tracksPruned
    rw [List.filter_eq_self]
    intro a ha
    have hT := hall a ha
    simp [Track.is_deleted, hT]
  constructor
  · show ((refreshLoop (tracksPruned env tr dets)).1).length = _
    rw [refreshLoop_fst, List.length_map, hprune, hai, newTracksFor_length]
    exact hud.length_eq.trans (List.length_range _)
  · intro t ht
    have ht2 : t ∈ (refreshLoop (tracksPruned env tr dets)).1 := ht
    rw [refreshLoop_fst] at ht2
    rcases List.mem_map.mp ht2 with ⟨s, hs, rfl⟩
    have hT : s.state = TrackState.Tentative := by
      apply hall s
      rw [← hprune]
      exact hs
    have hc : s.is_confirmed = false := by simp [Track.is_confirmed, hT]
    simp [hc]
    exact hT

theorem matchDets_empty_dets (env : Env) (tr : Tracker) (hE : EnvSolversOk env) :
    (matchDets env tr []).matched = [] ∧
    (matchDets env tr []).unmatched_detections = [] ∧
    (∀ k, k < tr.tracks.length → k ∈ (matchDets env tr []).unmatched_tracks) := by
  have hA := stageA_ok env tr [] hE
  have hA2 := hA.2
  have hrange : List.range (List.length ([] : List Detection)) = [] := rfl
  rw [hrange] at hA2
  have h1 := hA2.eq_nil
  rcases List.append_eq_nil.mp h1 with ⟨h2, h3⟩
  have hraM : (stageA env tr []).matched = [] := List.map_eq_nil_iff.mp h2
  have hB := stageB_ok env tr [] hE
  have hB2 := hB.2
  rw [h3] at hB2
  have h4 := hB2.eq_nil
  rcases List.append_eq_nil.mp h4 with ⟨h5, h6⟩
  have hrbM : (stageB env tr []).matched = [] := List.map_eq_nil_iff.mp h5
  refine ⟨?_, h6, ?_⟩
  · show (stageA env tr []).matched ++ (stageB env tr []).matched = []
    rw [hraM, hrbM]
    rfl
  · intro k hk
    have hmem : k ∈ confirmedIndices tr.tracks ++ unconfirmedIndices tr.tracks :=
      (perm_confirmed_unconfirmed tr.tracks).mem_iff.mpr (List.mem_range.mpr hk)
    have hAperm : (stageA env tr []).unmatched_tracks.Perm
        (confirmedIndices tr.tracks) := by
      have h := hA.1
      rw [hraM] at h
      simpa using h
    have hBperm : (stageB env tr []).unmatched_tracks.Perm
        (iou_track_candidates env tr []) := by
      have h := hB.1
      rw [hrbM] at h
      simpa using h
    show k ∈ (unmatchedTracksA env tr [] ++
        (stageB env tr []).unmatched_tracks).dedup
    rw [List.mem_dedup, List.mem_append]
    rcases List.mem_append.mp hmem with hc | hu
    · have hkA : k ∈ (stageA env tr []).unmatched_tracks := hAperm.mem_iff.mpr hc
      by_cases ht1 : (tr.tracks.getD k default).time_since_update = 1
      · right
        apply hBperm.mem_iff.mpr
        unfold iou_track_candidates
        apply List.mem_append_right
        exact List.mem_filter.mpr ⟨hkA, beq_iff_eq.mpr ht1⟩
      · left
        exact List.mem_filter.mpr ⟨hkA, bne_iff_ne.mpr ht1⟩
    · right
      apply hBperm.mem_iff.mpr
      unfold iou_track_candidates
      exact List.mem_append_left _ hu

theorem update_empty_dets (env : Env) (tr : Tracker) (hE : EnvSolversOk env) :
    (Tracker.update env tr []).1.next_id = tr.next_id ∧
    (afterInit env tr []).1 =
      applyMisses tr.tracks (matchDets env tr []).unmatched_tracks ∧
    ((∀ t ∈ tr.tracks, t.is_confirmed = true → t.features = []) →
       (fitCall env tr []).features = [] ∧ (fitCall env tr []).targets = []) := by
  obtain ⟨hm, hud, _⟩ := matchDets_empty_dets env tr hE
  have hAI : (afterInit env tr []).1 =
      applyMisses tr.tracks (matchDets env tr []).unmatched_tracks := by
    rw [afterInit_fst, hud]
    show tracksAfterApply env tr [] ++ [] = _
    rw [List.append_nil]
    unfold tracksAfterApply
    rw [hm]
    rfl
  refine ⟨?_, hAI, ?_⟩
  · rw [update_next_id, hud]
    rfl
  · intro hinv
    have hconf : ∀ s ∈ (tracksPruned env tr []).filter (fun t => t.is_confirmed),
        s.features = [] := by
      intro s hsf
      have hs1 := List.mem_filter.mp hsf
      have hs2 : s ∈ (afterInit env tr []).1 := by
        have := List.mem_filter.mp (show s ∈ (afterInit env tr []).1.filter
          (fun t => !t.is_deleted) from hs1.1)
        exact this.1
      rw [hAI] at hs2
      rcases applyMisses_mem s hs2 with ⟨t0, ht0, he | he⟩
      · rw [he]
        apply hinv t0 ht0
        rw [← he]
        exact hs1.2
      · have hcm : (mark_missed t0).is_confirmed = true := by
          rw [← he]
          exact hs1.2
        have hmm : mark_missed t0 = t0 := mark_missed_of_confirmed t0 hcm
        rw [he, hmm]
        apply hinv t0 ht0
        rw [← hmm, ← he]
        exact hs1.2
    constructor
    · show (refreshLoop (tracksPruned env tr [])).2.1 = []
      rw [refreshLoop_features, List.flatten_eq_nil_iff]
      intro l hl
      rcases List.mem_map.mp hl with ⟨s, hs, rfl⟩
      exact hconf s hs
    · show (refreshLoop (tracksPruned env tr [])).2.2 = []
      rw [refreshLoop_targets, List.flatten_eq_nil_iff]
      intro l hl
      rcases List.mem_map.mp hl with ⟨s, hs, rfl⟩
      rw [hconf s hs]
      rfl

/-- C8: the degenerate inputs are valid — with no tracks every detection
ends unmatched and spawns a Tentative track; with no detections every track
ends unmatched and miss-marked, no track is created, the identity counter
is unchanged, and (given the between-frames invariant) the gallery refresh
carries no features. -/
theorem empty_cases_valid (env : Env) (tr : Tracker) (dets : List Detection)
    (hE : EnvSolversOk env) : C8Shape env tr dets := by
  constructor
  · intro h0
    obtain ⟨hm, _, _, hud⟩ := matchDets_empty_tracks env tr dets hE h0
    obtain ⟨hlen, hstates⟩ := update_empty_tracks env tr dets hE h0
    exact ⟨hm, fun j => (hud.mem_iff).trans List.mem_range, hlen, hstates⟩
  · intro hdets
    subst hdets
    obtain ⟨hm, hudnil, hall⟩ := matchDets_empty_dets env tr hE
    obtain ⟨hnext, hAI, hfit⟩ := update_empty_dets env tr hE
    exact ⟨hm, hall, hudnil, hnext, hAI, hfit⟩

/-- C10: every `update`, on any input, performs exactly one gallery-refresh
invocation; with no confirmed survivors it carries fully empty arrays, and
with no detections (given the between-frames invariant) its feature and
target arrays are empty. -/
theorem gallery_refresh_always_once (env : Env) (tr : Tracker)
    (dets : List Detection) (hE : EnvSolversOk env) : C10Shape env tr dets := by
  refine ⟨rfl, rfl, rfl, ?_, ?_⟩
  · intro hnil
    apply FitCall.ext
    · show (refreshLoop (tracksPruned env tr dets)).2.1 = []
      rw [refreshLoop_features, hnil]
      rfl
    · show (refreshLoop (tracksPruned env tr dets)).2.2 = []
      rw [refreshLoop_targets, hnil]
      rfl
    · show ((tracksPruned env tr dets).filter
          (fun t => t.is_confirmed)).map Track.track_id = []
      rw [hnil]
      rfl
  · intro hdets hinv
    subst hdets
    exact (update_empty_dets env tr hE).2.2 hinv

/-! Concrete instantiations: the trivial environment satisfies the solver
contract, and each hypothesis-bearing claim theorem applies to it. -/

theorem envTriv_solvers_ok : EnvSolversOk envTriv := by
  constructor
  · intro cf th ma ts ds ti
    exact ⟨by simp [envTriv], by simp [envTriv]⟩
  · intro cf md ts ds ti di
    exact ⟨by simp [envTriv], by simp [envTriv]⟩

theorem stageB_candidate_set_exact_witness :
    EnvSolversOk envTriv ∧ C1Shape envTriv trX detsX :=
  ⟨envTriv_solvers_ok,
    stageB_candidate_set_exact envTriv trX detsX envTriv_solvers_ok⟩

theorem update_applies_match_outcomes_witness :
    EnvSolversOk envTriv ∧ C3Shape envTriv trX detsX :=
  ⟨envTriv_solvers_ok,
    update_applies_match_outcomes envTriv trX detsX envTriv_solvers_ok⟩

theorem track_ids_monotone_never_reused_witness :
    (∀ t ∈ trX.tracks, t.track_id < trX.next_id) ∧
      C6Shape envTriv [Op.predictOp, Op.updateOp detsX] trX :=
  ⟨by decide,
    track_ids_monotone_never_reused envTriv [Op.predictOp, Op.updateOp detsX] trX
      (by decide)⟩

theorem empty_cases_valid_witness :
    EnvSolversOk envTriv ∧ C8Shape envTriv trEmpty [] :=
  ⟨envTriv_solvers_ok, empty_cases_valid envTriv trEmpty [] envTriv_solvers_ok⟩

theorem match_result_is_partition_witness :
    EnvSolversOk envTriv ∧ C9Shape envTriv trX detsX :=
  ⟨envTriv_solvers_ok,
    match_result_is_partition envTriv trX detsX envTriv_solvers_ok⟩

theorem gallery_refresh_always_once_witness :
    EnvSolversOk envTriv ∧ C10Shape envTriv trX detsX :=
  ⟨envTriv_solvers_ok,
    gallery_refresh_always_once envTriv trX detsX envTriv_solvers_ok⟩

end DeepSort
